import Mathlib

/-!
# Verification of the student marks dashboard (`src/app.py`)

Shallow embedding of the single-script Streamlit + Firestore application.

* A Firestore document of the `students` collection is modelled by `Doc`:
  the five attributes the application reads are optional fields (a `none`
  field models a key that is missing on the stored document, read through
  `dict.get(key, default)`), and `extra` models arbitrary further
  attributes the schemaless document may carry.
* The collection itself is a list of `(document id, document)` pairs;
  Firestore's auto-generated ids are modelled as natural numbers and
  `freshId` models the store assigning an identifier not in use.
* `add_mark`, `fetch_all` embed the helper functions of the same names;
  `submitForm` embeds the entry-form submit handler; `applyFilters`,
  `aggSeries`, `dashboardAgg`, `dashboardTrend`, `exportSection` embed the
  dashboard body; `init_firestore` embeds the credential bootstrap, with
  the base64+JSON decoding step abstracted as a function argument and the
  filesystem probe as a boolean.
* Marks are embedded as integers (`int(marks)` in the handler); pandas
  float aggregation (`mean`, `round(2)`) is embedded exactly over `ℚ`.
-/

namespace StudentMarks

/-- A stored document of the `students` collection.  Fields are optional:
`none` models a document on which the attribute key is missing, so that a
read through `data.get(key, default)` falls back to the default.  `extra`
models any additional attributes the schemaless document carries. -/
structure Doc where
  name : Option String
  student_id : Option String
  subject : Option String
  marks : Option Int
  date : Option String
  extra : List (String × String)
deriving DecidableEq

/-- The `students` collection: stored documents keyed by their
store-assigned document id. -/
abbrev Store := List (Nat × Doc)

/-- One row of the pandas DataFrame built by `fetch_all`. -/
structure Row where
  id : Nat
  name : String
  student_id : String
  subject : String
  marks : Int
  date : String
deriving DecidableEq

/-- The store assigning a fresh (never used before) document id, modelling
`db.collection("students").document()  # auto-id`. -/
def freshId (s : Store) : Nat := (s.map Prod.fst).foldr max 0 + 1

/-- `add_mark(name, student_id, subject, marks, date_str)`: one new document
with a store-assigned id and exactly the five submitted attributes. -/
def add_mark (name student_id subject : String) (marks : Int) (date_str : String)
    (s : Store) : Store :=
  s ++ [(freshId s, ⟨some name, some student_id, some subject, some marks, some date_str, []⟩)]

/-- `fetch_all()`: stream all documents and materialize one row per document,
reading each attribute with `data.get(key, default)` — empty string for the
string attributes, `0` for `marks`. -/
def fetch_all : Store → List Row
  | [] => []
  | (i, d) :: docs =>
      { id := i
        name := d.name.getD ""
        student_id := d.student_id.getD ""
        subject := d.subject.getD ""
        marks := d.marks.getD 0
        date := d.date.getD "" } :: fetch_all docs

/-- The entry-form submit handler: `if not name or not subject:` warn and
write nothing, else `add_mark(...)`.  The boolean result is `true` when the
warning was shown (no write), `false` on success. -/
def submitForm (name student_id subject : String) (marks : Int) (date_str : String)
    (s : Store) : Store × Bool :=
  if name = "" ∨ subject = "" then (s, true)
  else (add_mark name student_id subject marks date_str s, false)

/-- A credential object (`credentials.Certificate(...)`), built either from
the decoded environment blob or from the local key file. -/
inductive Cred where
  | ofDict (payload : String)
  | ofFile (path : String)
deriving DecidableEq

/-- `init_firestore()`.  `decodeCred` abstracts the
base64-decode-then-JSON-parse step (`none` = any exception in that block);
`envCred` is the `FIREBASE_CREDENTIALS` environment variable if present;
`keyFileExists` is `os.path.exists("firebase_key.json")`.  `Except.error`
models `st.error(...)` followed by `st.stop()` (process halt, no client
returned); `Except.ok` models returning a Firestore client built from the
credential. -/
def init_firestore (decodeCred : String → Option String) (envCred : Option String)
    (keyFileExists : Bool) : Except String Cred :=
  match envCred with
  | some b64 =>
      match decodeCred b64 with
      | some dict => Except.ok (Cred.ofDict dict)
      | none => Except.error "Could not load Firebase credentials from FIREBASE_CREDENTIALS env var."
  | none =>
      if keyFileExists then Except.ok (Cred.ofFile "firebase_key.json")
      else Except.error "firebase_key.json not found."

/-- The dashboard filter block: equality filter on `subject` when the
subject selector is not `"All"`, then equality filter on `name` when the
student selector is not `"All"`. -/
def applyFilters (df : List Row) (subj_filter student_filter : String) : List Row :=
  let f1 := if subj_filter = "All" then df else df.filter fun r => r.subject == subj_filter
  if student_filter = "All" then f1 else f1.filter fun r => r.name == student_filter

/-- The four entries of `agg_map`. -/
inductive AggChoice where
  | average
  | max
  | min
  | count
deriving DecidableEq

/-- Largest element of a list of marks (`pandas .max()` on a nonempty group). -/
def listMax : List Int → Int
  | [] => 0
  | [a] => a
  | a :: b :: rest => max a (listMax (b :: rest))

/-- Smallest element of a list of marks (`pandas .min()` on a nonempty group). -/
def listMin : List Int → Int
  | [] => 0
  | [a] => a
  | a :: b :: rest => min a (listMin (b :: rest))

/-- `pandas .mean()` over a marks column, exactly, as a rational. -/
def mean (g : List Int) : ℚ := (g.map fun m => (m : ℚ)).sum / g.length

/-- `pandas .round(2)`: round to two decimal places. -/
def round2 (q : ℚ) : ℚ := ((round (q * 100) : ℤ) : ℚ) / 100

/-- The reduction chosen by `agg_map[agg_choice]`, applied to the marks of
one subject group. -/
def aggValue : AggChoice → List Int → ℚ
  | .average, g => mean g
  | .max, g => (listMax g : ℚ)
  | .min, g => (listMin g : ℚ)
  | .count, g => (g.length : ℚ)

/-- The group keys of `filtered.groupby("subject")`: each distinct subject
value occurring in the filtered rows. -/
def subjectsOf (rows : List Row) : List String := (rows.map Row.subject).dedup

/-- The marks column of one subject group. -/
def groupMarks (rows : List Row) (x : String) : List Int :=
  (rows.filter fun r => r.subject == x).map Row.marks

/-- `result_series = agg_map[agg_choice].round(2)`: the per-subject
aggregation series. -/
def aggSeries (agg : AggChoice) (filtered : List Row) : List (String × ℚ) :=
  (subjectsOf filtered).map fun x => (x, round2 (aggValue agg (groupMarks filtered x)))

/-- The aggregation part of the dashboard body: `none` models the
`st.warning("No data after applying filters.")` branch taken when the
filtered set is empty; otherwise the aggregation series is rendered. -/
def dashboardAgg (df : List Row) (subj_filter student_filter : String)
    (agg : AggChoice) : Option (List (String × ℚ)) :=
  let filtered := applyFilters df subj_filter student_filter
  if filtered.isEmpty then none else some (aggSeries agg filtered)

/-- Boolean lexicographic order on lists of characters; ISO date strings
compare chronologically under it.  Used to embed
`filtered.sort_values("date")`. -/
def lexLeb : List Char → List Char → Bool
  | [], _ => true
  | _ :: _, [] => false
  | a :: as, b :: bs => if a < b then true else if b < a then false else lexLeb as bs

/-- Row order by date string, as sorted by `filtered.sort_values("date")`. -/
def dateLe (a b : Row) : Prop := lexLeb a.date.data b.date.data = true

instance : DecidableRel dateLe := fun a b =>
  inferInstanceAs (Decidable (lexLeb a.date.data b.date.data = true))

/-- The `(date, marks)` pairs of the filtered rows, sorted by date:
`trend = filtered.sort_values("date")`, then plotted as
`(trend["date"], trend["marks"])`. -/
def trendPairs (filtered : List Row) : List (String × Int) :=
  (List.insertionSort dateLe filtered).map fun r => (r.date, r.marks)

/-- The trend part of the dashboard body: produced only when the filtered
set is non-empty (no-data warning otherwise) and a single student is
selected (`student_filter != "All"`). -/
def dashboardTrend (df : List Row) (subj_filter student_filter : String) :
    Option (List (String × Int)) :=
  let filtered := applyFilters df subj_filter student_filter
  if filtered.isEmpty then none
  else if student_filter = "All" then none
  else some (trendPairs filtered)

/-! ## CSV serialization (`df.to_csv(index=False)`)

pandas `to_csv` writes a header line with the column names followed by one
line per row, fields separated by commas, each line terminated by a
newline, and quotes a field (doubling the embedded double quotes) exactly
when it contains a comma, a double quote, a newline or a carriage return
(`QUOTE_MINIMAL`).  Integers are written in decimal. -/

/-- The double-quote character. -/
def quoteChar : Char := Char.ofNat 34

/-- Characters forcing a field to be quoted under `QUOTE_MINIMAL`. -/
def isCsvSpecial (c : Char) : Bool :=
  c == ',' || c == quoteChar || c == '\n' || c == '\r'

/-- Double every embedded double quote. -/
def escQ : List Char → List Char
  | [] => []
  | c :: cs => if c = quoteChar then quoteChar :: quoteChar :: escQ cs else c :: escQ cs

/-- Serialize one field with minimal quoting. -/
def encField (f : List Char) : List Char :=
  if f.any isCsvSpecial then quoteChar :: (escQ f ++ [quoteChar]) else f

/-- Serialize one line: fields joined by commas. -/
def encRow : List (List Char) → List Char
  | [] => []
  | [f] => encField f
  | f :: g :: fs => encField f ++ ',' :: encRow (g :: fs)

/-- The decimal digits `0`-`9` (the catch-all case is unreachable for an
actual digit). -/
def digitChar : Nat → Char
  | 0 => '0'
  | 1 => '1'
  | 2 => '2'
  | 3 => '3'
  | 4 => '4'
  | 5 => '5'
  | 6 => '6'
  | 7 => '7'
  | 8 => '8'
  | 9 => '9'
  | _ + 10 => '*'

/-- Decimal rendering of a natural number, as Python prints it. -/
def natStr (n : Nat) : List Char :=
  if n = 0 then ['0'] else (Nat.digits 10 n).reverse.map digitChar

/-- Decimal rendering of an integer, as Python prints it. -/
def intStr (m : Int) : List Char :=
  if m < 0 then '-' :: natStr m.natAbs else natStr m.natAbs

/-- The header fields written by `to_csv`: the DataFrame column names. -/
def headerFields : List (List Char) :=
  ["id".data, "name".data, "student_id".data, "subject".data, "marks".data, "date".data]

/-- The serialized fields of one row, in column order. -/
def rowFields (r : Row) : List (List Char) :=
  [natStr r.id, r.name.data, r.student_id.data, r.subject.data, intStr r.marks, r.date.data]

/-- `csv = df.to_csv(index=False)`: header line then one line per row, each
line newline-terminated. -/
def toCsv (df : List Row) : String :=
  String.mk (((headerFields :: df.map rowFields).map fun fs => encRow fs ++ ['\n']).flatten)

/-- The export section: `if not df.empty:` offer
`st.download_button("Download CSV", csv, file_name="student_marks.csv",
mime="text/csv")`; `none` when the DataFrame is empty (no button at all). -/
def exportSection (df : List Row) : Option (String × String × String) :=
  if df.isEmpty then none
  else some (toCsv df, "student_marks.csv", "text/csv")

/-! ## Basic lemmas about the store operations -/

theorem fetch_all_append (s t : Store) :
    fetch_all (s ++ t) = fetch_all s ++ fetch_all t := by
  induction s with
  | nil => rfl
  | cons p rest ih => cases p; simp [fetch_all, ih]

theorem map_id_fetch_all (s : Store) :
    (fetch_all s).map Row.id = s.map Prod.fst := by
  induction s with
  | nil => rfl
  | cons p rest ih => cases p; simp [fetch_all, ih]

theorem le_foldr_max (l : List Nat) : ∀ a ∈ l, a ≤ l.foldr max 0 := by
  induction l with
  | nil => intro a ha; cases ha
  | cons b rest ih =>
      intro a ha
      rw [List.mem_cons] at ha
      rcases ha with rfl | h
      · exact le_max_left _ _
      · exact le_trans (ih _ h) (le_max_right _ _)

theorem freshId_not_mem (s : Store) : freshId s ∉ s.map Prod.fst := by
  intro h
  have := le_foldr_max (s.map Prod.fst) _ h
  simp only [freshId] at this
  omega

/-! ## Claims -/

/-- C1: for every valid submission (non-empty name, non-empty subject,
marks an integer in [0,100], ISO date string), the submit handler creates
exactly one new record in the store, carrying the submitted field values
under a freshly assigned identifier, so a subsequent `fetch_all` returns
the previous rows plus exactly one new matching row. -/
theorem submit_creates_one_matching_record
    (name student_id subject : String) (marks : Int) (date_str : String) (s : Store)
    (hname : name ≠ "") (hsubj : subject ≠ "")
    (_hlo : 0 ≤ marks) (_hhi : marks ≤ 100) :
    fetch_all (submitForm name student_id subject marks date_str s).1 =
      fetch_all s ++ [⟨freshId s, name, student_id, subject, marks, date_str⟩] ∧
    freshId s ∉ (fetch_all s).map Row.id := by
  constructor
  · simp only [submitForm, hname, hsubj, false_or, if_neg]
    simp [add_mark, fetch_all_append, fetch_all]
  · rw [map_id_fetch_all]
    exact freshId_not_mem s

/-- Witness for C1 at a concrete submission over the empty store. -/
theorem submit_creates_one_matching_record_witness :
    fetch_all (submitForm "Alice" "S1" "Math" 80 "2024-01-01" []).1 =
      fetch_all ([] : Store) ++ [⟨freshId [], "Alice", "S1", "Math", 80, "2024-01-01"⟩] ∧
    freshId ([] : Store) ∉ (fetch_all ([] : Store)).map Row.id :=
  submit_creates_one_matching_record "Alice" "S1" "Math" 80 "2024-01-01" []
    (by decide) (by decide) (by decide) (by decide)

/-- C3: submitting with an empty name or an empty subject writes nothing:
the store is unchanged (so the record count is unchanged) and the warning
is surfaced. -/
theorem empty_required_field_writes_nothing
    (name student_id subject : String) (marks : Int) (date_str : String) (s : Store)
    (h : name = "" ∨ subject = "") :
    (submitForm name student_id subject marks date_str s).1 = s ∧
    (submitForm name student_id subject marks date_str s).2 = true ∧
    (fetch_all (submitForm name student_id subject marks date_str s).1).length =
      (fetch_all s).length := by
  have hif : submitForm name student_id subject marks date_str s = (s, true) := by
    simp [submitForm, h]
  simp [hif]

/-- Witness for C3: empty name, non-empty subject. -/
theorem empty_required_field_writes_nothing_witness :
    (submitForm "" "S1" "Math" 80 "2024-01-01" []).1 = ([] : Store) ∧
    (submitForm "" "S1" "Math" 80 "2024-01-01" []).2 = true ∧
    (fetch_all (submitForm "" "S1" "Math" 80 "2024-01-01" []).1).length =
      (fetch_all ([] : Store)).length :=
  empty_required_field_writes_nothing "" "S1" "Math" 80 "2024-01-01" [] (Or.inl rfl)

/-- C7: `fetch_all` materializes exactly one row per stored document, in
collection order, with every missing attribute defaulted — empty string
for `name`, `student_id`, `subject`, `date`, zero for `marks` — and no
filtering, paging or sorting applied. -/
theorem fetch_all_one_row_per_doc_with_defaults (s : Store) :
    fetch_all s = s.map (fun p =>
      { id := p.1
        name := p.2.name.getD ""
        student_id := p.2.student_id.getD ""
        subject := p.2.subject.getD ""
        marks := p.2.marks.getD 0
        date := p.2.date.getD "" }) ∧
    (fetch_all s).length = s.length := by
  constructor
  · induction s with
    | nil => rfl
    | cons p rest ih => cases p; simp [fetch_all, ih]
  · induction s with
    | nil => rfl
    | cons p rest ih => cases p; simp [fetch_all, ih]

/-- C10: each row has exactly the six attributes `id`, `name`,
`student_id`, `subject`, `marks`, `date`: erasing all extra attributes of
every stored document leaves the fetched table unchanged, and every
fetched row is exactly a record of those six fields. -/
theorem fetch_all_drops_extra_attributes (s : Store) :
    fetch_all (s.map fun p => (p.1, { p.2 with extra := [] })) = fetch_all s ∧
    ∀ r ∈ fetch_all s, r = { id := r.id, name := r.name, student_id := r.student_id,
                             subject := r.subject, marks := r.marks, date := r.date } := by
  constructor
  · induction s with
    | nil => rfl
    | cons p rest ih => cases p; simp [fetch_all, ih]
  · intro r _
    rfl

/-- C8: when the environment blob is absent or fails to decode, and the
local key file does not exist, startup is fatal: `init_firestore` halts
with a user-visible message and returns no store connection. -/
theorem missing_credentials_fatal
    (decodeCred : String → Option String) (envCred : Option String)
    (henv : ∀ b64, envCred = some b64 → decodeCred b64 = none) :
    (∃ msg, init_firestore decodeCred envCred false = Except.error msg) ∧
    ∀ c, init_firestore decodeCred envCred false ≠ Except.ok c := by
  cases envCred with
  | none =>
      refine ⟨⟨"firebase_key.json not found.", ?_⟩, ?_⟩
      · simp [init_firestore]
      · intro c h
        simp [init_firestore] at h
  | some b64 =>
      have hd := henv b64 rfl
      refine ⟨⟨"Could not load Firebase credentials from FIREBASE_CREDENTIALS env var.", ?_⟩, ?_⟩
      · simp [init_firestore, hd]
      · intro c h
        simp [init_firestore, hd] at h

/-- Witness for C8: no environment blob and no key file. -/
theorem missing_credentials_fatal_witness :
    (∃ msg, init_firestore (fun _ => none) none false = Except.error msg) ∧
    ∀ c, init_firestore (fun _ => none) none false ≠ Except.ok c :=
  missing_credentials_fatal (fun _ => none) none (fun b64 h => by cases h)

/-- C9: the CSV download is offered exactly when the fetched record set is
non-empty; on an empty record set no export of any kind is produced. -/
theorem export_offered_iff_nonempty (df : List Row) :
    ((exportSection df).isSome ↔ df ≠ []) ∧
    exportSection ([] : List Row) = none := by
  constructor
  · cases df with
    | nil => simp [exportSection]
    | cons r rest => simp [exportSection]
  · rfl

/-- C4: whenever the equality filters on subject and/or student name
match no rows (the filtered set is empty), every aggregation choice
yields the no-data condition (no table, no chart) and no trend is
produced — no exception escapes (the embedding is a total function).
In particular the filtered set is empty when the subject filter is set
to a value not present in the data, and likewise when the student
filter is set to a name not present in the data. -/
theorem unmatched_filter_yields_no_data (df : List Row) (subj_filter student_filter : String) :
    (applyFilters df subj_filter student_filter = [] →
      (∀ agg, dashboardAgg df subj_filter student_filter agg = none) ∧
      dashboardTrend df subj_filter student_filter = none) ∧
    (subj_filter ≠ "All" → subj_filter ∉ df.map Row.subject →
      applyFilters df subj_filter student_filter = []) ∧
    (student_filter ≠ "All" → student_filter ∉ df.map Row.name →
      applyFilters df subj_filter student_filter = []) := by
  refine ⟨?_, ?_, ?_⟩
  · intro hfil
    constructor
    · intro agg
      simp [dashboardAgg, hfil]
    · simp [dashboardTrend, hfil]
  · intro h1 h2
    have hf1 : df.filter (fun r => r.subject == subj_filter) = [] := by
      rw [List.filter_eq_nil_iff]
      intro r hr
      simp only [beq_iff_eq]
      intro hEq
      exact h2 (List.mem_map.mpr ⟨r, hr, hEq⟩)
    simp [applyFilters, h1, hf1]
  · intro h1 h2
    have hsub : ∀ r ∈ (if subj_filter = "All" then df
        else df.filter fun r => r.subject == subj_filter), r.name ≠ student_filter := by
      intro r hr
      have hrdf : r ∈ df := by
        by_cases hs : subj_filter = "All"
        · simpa [hs] using hr
        · rw [if_neg hs] at hr
          exact (List.mem_filter.mp hr).1
      intro hEq
      exact h2 (List.mem_map.mpr ⟨r, hrdf, hEq⟩)
    simp only [applyFilters, if_neg h1]
    rw [List.filter_eq_nil_iff]
    intro r hr
    simp only [beq_iff_eq]
    exact hsub r hr

/-- Witness for C4: one Math/Alice record; the absent student name Zoe
(with subject filter All) empties the filtered set and yields no
aggregation and no trend, and the absent subject French also empties
the filtered set. -/
theorem unmatched_filter_yields_no_data_witness :
    applyFilters [⟨1, "Alice", "S1", "Math", 80, "2024-01-01"⟩] "All" "Zoe" = [] ∧
    dashboardAgg [⟨1, "Alice", "S1", "Math", 80, "2024-01-01"⟩] "All" "Zoe" .average = none ∧
    dashboardTrend [⟨1, "Alice", "S1", "Math", 80, "2024-01-01"⟩] "All" "Zoe" = none ∧
    applyFilters [⟨1, "Alice", "S1", "Math", 80, "2024-01-01"⟩] "French" "All" = [] := by
  have h1 := unmatched_filter_yields_no_data
    [⟨1, "Alice", "S1", "Math", 80, "2024-01-01"⟩] "All" "Zoe"
  have h2 := unmatched_filter_yields_no_data
    [⟨1, "Alice", "S1", "Math", 80, "2024-01-01"⟩] "French" "All"
  have hfil := h1.2.2 (by decide) (by decide)
  exact ⟨hfil, (h1.1 hfil).1 .average, (h1.1 hfil).2, h2.2.1 (by decide) (by decide)⟩

/-! ## Aggregation bounds (C2) -/

theorem le_listMax (g : List Int) : ∀ a ∈ g, a ≤ listMax g := by
  induction g with
  | nil => intro a ha; cases ha
  | cons b rest ih =>
      intro a ha
      rw [List.mem_cons] at ha
      cases rest with
      | nil =>
          rcases ha with rfl | h
          · simp [listMax]
          · cases h
      | cons c rest2 =>
          rcases ha with rfl | h
          · simp [listMax]
          · exact le_trans (ih a h) (le_max_right _ _)

theorem listMin_le (g : List Int) : ∀ a ∈ g, listMin g ≤ a := by
  induction g with
  | nil => intro a ha; cases ha
  | cons b rest ih =>
      intro a ha
      rw [List.mem_cons] at ha
      cases rest with
      | nil =>
          rcases ha with rfl | h
          · simp [listMin]
          · cases h
      | cons c rest2 =>
          rcases ha with rfl | h
          · simp [listMin]
          · exact le_trans (min_le_right _ _) (ih a h)

theorem sum_le_length_mul_listMax (g : List Int) (hne : g ≠ []) :
    (g.map fun m => (m : ℚ)).sum ≤ (g.length : ℚ) * (listMax g : ℚ) := by
  induction g with
  | nil => cases hne rfl
  | cons b rest ih =>
      cases rest with
      | nil => simp [listMax]
      | cons c rest2 =>
          have hmax : (listMax (c :: rest2) : ℚ) ≤ (listMax (b :: c :: rest2) : ℚ) := by
            have : listMax (c :: rest2) ≤ listMax (b :: c :: rest2) := by
              simp [listMax]
            exact_mod_cast this
          have hb : (b : ℚ) ≤ (listMax (b :: c :: rest2) : ℚ) := by
            exact_mod_cast le_listMax (b :: c :: rest2) b (by simp)
          have hrec := ih (by simp)
          have hlen : ((c :: rest2).length : ℚ) ≥ 0 := by positivity
          calc ((b :: c :: rest2).map fun m => (m : ℚ)).sum
              = (b : ℚ) + ((c :: rest2).map fun m => (m : ℚ)).sum := by simp
            _ ≤ (listMax (b :: c :: rest2) : ℚ) +
                ((c :: rest2).length : ℚ) * (listMax (b :: c :: rest2) : ℚ) := by
                  refine add_le_add hb (le_trans hrec ?_)
                  exact mul_le_mul_of_nonneg_left hmax hlen
            _ = ((b :: c :: rest2).length : ℚ) * (listMax (b :: c :: rest2) : ℚ) := by
                  simp [List.length_cons]
                  ring

theorem length_mul_listMin_le_sum (g : List Int) (hne : g ≠ []) :
    (g.length : ℚ) * (listMin g : ℚ) ≤ (g.map fun m => (m : ℚ)).sum := by
  induction g with
  | nil => cases hne rfl
  | cons b rest ih =>
      cases rest with
      | nil => simp [listMin]
      | cons c rest2 =>
          have hmin : (listMin (b :: c :: rest2) : ℚ) ≤ (listMin (c :: rest2) : ℚ) := by
            have : listMin (b :: c :: rest2) ≤ listMin (c :: rest2) := by
              simp [listMin]
            exact_mod_cast this
          have hb : (listMin (b :: c :: rest2) : ℚ) ≤ (b : ℚ) := by
            exact_mod_cast listMin_le (b :: c :: rest2) b (by simp)
          have hrec := ih (by simp)
          have hlen : ((c :: rest2).length : ℚ) ≥ 0 := by positivity
          calc ((b :: c :: rest2).length : ℚ) * (listMin (b :: c :: rest2) : ℚ)
              = (listMin (b :: c :: rest2) : ℚ) +
                ((c :: rest2).length : ℚ) * (listMin (b :: c :: rest2) : ℚ) := by
                  simp [List.length_cons]
                  ring
            _ ≤ (b : ℚ) + ((c :: rest2).map fun m => (m : ℚ)).sum := by
                  refine add_le_add hb (le_trans ?_ hrec)
                  exact mul_le_mul_of_nonneg_left hmin hlen
            _ = ((b :: c :: rest2).map fun m => (m : ℚ)).sum := by simp

theorem mean_le_listMax (g : List Int) (hne : g ≠ []) : mean g ≤ (listMax g : ℚ) := by
  have hlen : (0 : ℚ) < g.length := by
    have : 0 < g.length := List.length_pos.mpr hne
    exact_mod_cast this
  rw [mean, div_le_iff₀ hlen, mul_comm]
  exact sum_le_length_mul_listMax g hne

theorem listMin_le_mean (g : List Int) (hne : g ≠ []) : (listMin g : ℚ) ≤ mean g := by
  have hlen : (0 : ℚ) < g.length := by
    have : 0 < g.length := List.length_pos.mpr hne
    exact_mod_cast this
  rw [mean, le_div_iff₀ hlen, mul_comm]
  exact length_mul_listMin_le_sum g hne

theorem round2_intCast (n : ℤ) : round2 ((n : ℤ) : ℚ) = (n : ℚ) := by
  unfold round2
  have h : ((n : ℚ) * 100) = ((n * 100 : ℤ) : ℚ) := by push_cast; ring
  rw [h, round_intCast]
  push_cast
  ring

theorem round2_mono {q r : ℚ} (h : q ≤ r) : round2 q ≤ round2 r := by
  unfold round2
  have hr : round (q * 100) ≤ round (r * 100) := by
    rw [round_eq, round_eq]
    exact Int.floor_mono (by linarith)
  have hc : ((round (q * 100) : ℤ) : ℚ) ≤ ((round (r * 100) : ℤ) : ℚ) := by exact_mod_cast hr
  linarith

theorem groupMarks_ne_nil (rows : List Row) (x : String) (hx : x ∈ subjectsOf rows) :
    groupMarks rows x ≠ [] := by
  rw [subjectsOf, List.mem_dedup, List.mem_map] at hx
  obtain ⟨r, hr, hrx⟩ := hx
  intro hnil
  have : r.marks ∈ groupMarks rows x := by
    rw [groupMarks, List.mem_map]
    exact ⟨r, List.mem_filter.mpr ⟨hr, by simp [hrx]⟩, rfl⟩
  rw [hnil] at this
  cases this

/-- C2: every entry `(x, v)` of the per-subject aggregation series is over
a non-empty group, and: for Count, `v` equals the number of rows of the
group; for Max, `v` is at least every marks value; for Min, `v` is at most
every marks value; for Average, `v` (the mean rounded to 2 decimal places)
lies in `[min(marks), max(marks)]` of the group. -/
theorem aggSeries_group_bounds (filtered : List Row) (agg : AggChoice) (x : String) (v : ℚ)
    (hmem : (x, v) ∈ aggSeries agg filtered) :
    groupMarks filtered x ≠ [] ∧
    (agg = AggChoice.count → v = ((groupMarks filtered x).length : ℚ)) ∧
    (agg = AggChoice.max → ∀ m ∈ groupMarks filtered x, (m : ℚ) ≤ v) ∧
    (agg = AggChoice.min → ∀ m ∈ groupMarks filtered x, v ≤ (m : ℚ)) ∧
    (agg = AggChoice.average →
      ((listMin (groupMarks filtered x) : ℚ) ≤ v ∧ v ≤ (listMax (groupMarks filtered x) : ℚ))) := by
  rw [aggSeries, List.mem_map] at hmem
  obtain ⟨x2, hx2, hpair⟩ := hmem
  have hx : x2 = x := congrArg Prod.fst hpair
  subst hx
  have hv : v = round2 (aggValue agg (groupMarks filtered x2)) :=
    (congrArg Prod.snd hpair).symm
  have hne := groupMarks_ne_nil filtered x2 hx2
  refine ⟨hne, ?_, ?_, ?_, ?_⟩
  · rintro rfl
    rw [hv]
    show round2 (aggValue AggChoice.count (groupMarks filtered x2)) = _
    rw [aggValue]
    have : (((groupMarks filtered x2).length : ℤ) : ℚ) = ((groupMarks filtered x2).length : ℚ) := by
      push_cast; ring
    rw [← this, round2_intCast, this]
  · rintro rfl
    intro m hm
    rw [hv]
    show (m : ℚ) ≤ round2 (aggValue AggChoice.max (groupMarks filtered x2))
    rw [aggValue, round2_intCast]
    exact_mod_cast le_listMax _ m hm
  · rintro rfl
    intro m hm
    rw [hv]
    show round2 (aggValue AggChoice.min (groupMarks filtered x2)) ≤ (m : ℚ)
    rw [aggValue, round2_intCast]
    exact_mod_cast listMin_le _ m hm
  · rintro rfl
    rw [hv]
    show _ ∧ round2 (aggValue AggChoice.average (groupMarks filtered x2)) ≤ _
    rw [aggValue]
    constructor
    · have h1 := listMin_le_mean (groupMarks filtered x2) hne
      have h2 := round2_mono h1
      rwa [round2_intCast] at h2
    · have h1 := mean_le_listMax (groupMarks filtered x2) hne
      have h2 := round2_mono h1
      rwa [round2_intCast] at h2

/-- Witness for C2: two Math rows with marks 80 and 70, Average
aggregation: the series holds `("Math", 75)` and 75 lies within the
group bounds. -/
theorem aggSeries_group_bounds_witness :
    groupMarks [⟨1, "Alice", "S1", "Math", 80, "2024-01-01"⟩,
                ⟨2, "Bob", "S2", "Math", 70, "2024-01-15"⟩] "Math" ≠ [] ∧
    (AggChoice.average = AggChoice.count →
      (75 : ℚ) = ((groupMarks [⟨1, "Alice", "S1", "Math", 80, "2024-01-01"⟩,
                   ⟨2, "Bob", "S2", "Math", 70, "2024-01-15"⟩] "Math").length : ℚ)) ∧
    (AggChoice.average = AggChoice.max →
      ∀ m ∈ groupMarks [⟨1, "Alice", "S1", "Math", 80, "2024-01-01"⟩,
             ⟨2, "Bob", "S2", "Math", 70, "2024-01-15"⟩] "Math", (m : ℚ) ≤ (75 : ℚ)) ∧
    (AggChoice.average = AggChoice.min →
      ∀ m ∈ groupMarks [⟨1, "Alice", "S1", "Math", 80, "2024-01-01"⟩,
             ⟨2, "Bob", "S2", "Math", 70, "2024-01-15"⟩] "Math", (75 : ℚ) ≤ (m : ℚ)) ∧
    (AggChoice.average = AggChoice.average →
      ((listMin (groupMarks [⟨1, "Alice", "S1", "Math", 80, "2024-01-01"⟩,
                  ⟨2, "Bob", "S2", "Math", 70, "2024-01-15"⟩] "Math") : ℚ) ≤ (75 : ℚ) ∧
       (75 : ℚ) ≤ (listMax (groupMarks [⟨1, "Alice", "S1", "Math", 80, "2024-01-01"⟩,
                  ⟨2, "Bob", "S2", "Math", 70, "2024-01-15"⟩] "Math") : ℚ))) := by
  refine aggSeries_group_bounds
    [⟨1, "Alice", "S1", "Math", 80, "2024-01-01"⟩, ⟨2, "Bob", "S2", "Math", 70, "2024-01-15"⟩]
    AggChoice.average "Math" 75 ?_
  have h1 : aggSeries AggChoice.average
      [⟨1, "Alice", "S1", "Math", 80, "2024-01-01"⟩, ⟨2, "Bob", "S2", "Math", 70, "2024-01-15"⟩] =
      [("Math", round2 (mean [(80 : Int), 70]))] := rfl
  have h2 : mean [(80 : Int), 70] = 75 := by
    simp [mean]
    norm_num
  have h3 : round2 (75 : ℚ) = 75 := by
    have h4 := round2_intCast 75
    norm_num at h4
    exact h4
  rw [h1, h2, h3]
  simp

/-! ## Trend ordering (C5) -/

theorem lexLeb_total : ∀ a b : List Char, lexLeb a b = true ∨ lexLeb b a = true := by
  intro a
  induction a with
  | nil => intro b; left; rfl
  | cons x xs ih =>
      intro b
      cases b with
      | nil => right; rfl
      | cons y ys =>
          by_cases h1 : x < y
          · left; simp [lexLeb, h1]
          · by_cases h2 : y < x
            · right; simp [lexLeb, h2]
            · rcases ih ys with h | h
              · left; simp [lexLeb, h1, h2, h]
              · right; simp [lexLeb, h1, h2, h]

theorem lexLeb_trans :
    ∀ a b c : List Char, lexLeb a b = true → lexLeb b c = true → lexLeb a c = true := by
  intro a
  induction a with
  | nil => intro b c _ _; rfl
  | cons x xs ih =>
      intro b c hab hbc
      cases b with
      | nil => simp [lexLeb] at hab
      | cons y ys =>
          cases c with
          | nil => simp [lexLeb] at hbc
          | cons z zs =>
              by_cases hxy : x < y
              · by_cases hyz : y < z
                · simp [lexLeb, lt_trans hxy hyz]
                · by_cases hzy : z < y
                  · simp [lexLeb, hyz, hzy] at hbc
                  · have hyeq : y = z := le_antisymm (not_lt.mp hzy) (not_lt.mp hyz)
                    subst hyeq
                    simp [lexLeb, hxy]
              · by_cases hyx : y < x
                · simp [lexLeb, hxy, hyx] at hab
                · have hxeq : x = y := le_antisymm (not_lt.mp hyx) (not_lt.mp hxy)
                  subst hxeq
                  simp only [lexLeb, if_neg hxy, if_neg hyx] at hab
                  by_cases hyz : x < z
                  · simp [lexLeb, hyz]
                  · by_cases hzy : z < x
                    · simp [lexLeb, hyz, hzy] at hbc
                    · have hzeq : x = z := le_antisymm (not_lt.mp hzy) (not_lt.mp hyz)
                      subst hzeq
                      simp only [lexLeb, if_neg hyz, if_neg hzy] at hbc ⊢
                      exact ih ys zs hab hbc

instance : IsTotal Row dateLe := ⟨fun a b => lexLeb_total a.date.data b.date.data⟩

instance : IsTrans Row dateLe :=
  ⟨fun a b c => lexLeb_trans a.date.data b.date.data c.date.data⟩

/-- C5: with a single student selected and a non-empty filtered set, the
dashboard produces a trend sequence consisting of exactly the `(date,
marks)` pairs of that student's filtered rows, sorted chronologically by
date (ISO date strings compare chronologically as strings); every filtered
row belongs to the selected student. -/
theorem single_student_trend (df : List Row) (subj_filter student_filter : String)
    (hst : student_filter ≠ "All")
    (hne : applyFilters df subj_filter student_filter ≠ []) :
    ∃ t, dashboardTrend df subj_filter student_filter = some t ∧
      t.Pairwise (fun p q => lexLeb p.1.data q.1.data = true) ∧
      t.Perm ((applyFilters df subj_filter student_filter).map fun r => (r.date, r.marks)) ∧
      ∀ r ∈ applyFilters df subj_filter student_filter, r.name = student_filter := by
  have h1 : (applyFilters df subj_filter student_filter).isEmpty = false := by
    cases hE : (applyFilters df subj_filter student_filter).isEmpty
    · rfl
    · exact absurd (List.isEmpty_iff.mp hE) hne
  refine ⟨trendPairs (applyFilters df subj_filter student_filter), ?_, ?_, ?_, ?_⟩
  · simp [dashboardTrend, h1, hst]
  · exact List.pairwise_map.mpr (List.sorted_insertionSort dateLe _)
  · exact List.Perm.map _ (List.perm_insertionSort dateLe _)
  · intro r hr
    simp only [applyFilters, if_neg hst] at hr
    rw [List.mem_filter] at hr
    simpa using hr.2

/-- The record set of the worked example in the specification. -/
def exampleDf : List Row :=
  [⟨1, "Alice", "S1", "Math", 80, "2024-01-01"⟩,
   ⟨2, "Alice", "S1", "Math", 90, "2024-02-01"⟩,
   ⟨3, "Bob", "S2", "Math", 70, "2024-01-15"⟩]

/-- Witness for C5: on the specification's example records with student
filter Alice, the trend sequence is exactly
`[(2024-01-01, 80), (2024-02-01, 90)]`, and the general theorem applies. -/
theorem single_student_trend_witness :
    dashboardTrend exampleDf "All" "Alice" = some [("2024-01-01", 80), ("2024-02-01", 90)] ∧
    (∃ t, dashboardTrend exampleDf "All" "Alice" = some t ∧
      t.Pairwise (fun p q => lexLeb p.1.data q.1.data = true) ∧
      t.Perm ((applyFilters exampleDf "All" "Alice").map fun r => (r.date, r.marks)) ∧
      ∀ r ∈ applyFilters exampleDf "All" "Alice", r.name = "Alice") :=
  ⟨by decide, single_student_trend exampleDf "All" "Alice" (by decide) (by decide)⟩

/-! ## CSV re-parsing (C6)

A standard CSV reader as a character-level state machine (RFC 4180 quoting
rules, newline-terminated lines, the format `to_csv` writes): the inverse
direction of the round trip.  Each transition consumes exactly one
character, so the machine is structurally recursive. -/

/-- Parser state: at the start of a field (with the fields of the current
line accumulated so far), inside an unquoted field, inside a quoted field,
or inside a quoted field having just read a double quote. -/
inductive CsvState where
  | startField (row : List (List Char))
  | unquoted (f : List Char) (row : List (List Char))
  | quoted (f : List Char) (row : List (List Char))
  | afterQ (f : List Char) (row : List (List Char))

/-- Run the CSV state machine over the remaining input, accumulating
finished lines in `out`.  `none` models a malformed file (unterminated
quote, or text after a closing quote). -/
def csvStep (st : CsvState) (out : List (List (List Char))) :
    List Char → Option (List (List (List Char)))
  | [] =>
      match st with
      | .startField row => if row.isEmpty then some out else some (out ++ [row ++ [[]]])
      | .unquoted f row => some (out ++ [row ++ [f]])
      | .quoted _ _ => none
      | .afterQ f row => some (out ++ [row ++ [f]])
  | c :: rest =>
      match st with
      | .startField row =>
          if c = quoteChar then csvStep (.quoted [] row) out rest
          else if c = ',' then csvStep (.startField (row ++ [[]])) out rest
          else if c = '\n' then csvStep (.startField []) (out ++ [row ++ [[]]]) rest
          else csvStep (.unquoted [c] row) out rest
      | .unquoted f row =>
          if c = ',' then csvStep (.startField (row ++ [f])) out rest
          else if c = '\n' then csvStep (.startField []) (out ++ [row ++ [f]]) rest
          else csvStep (.unquoted (f ++ [c]) row) out rest
      | .quoted f row =>
          if c = quoteChar then csvStep (.afterQ f row) out rest
          else csvStep (.quoted (f ++ [c]) row) out rest
      | .afterQ f row =>
          if c = quoteChar then csvStep (.quoted (f ++ [quoteChar]) row) out rest
          else if c = ',' then csvStep (.startField (row ++ [f])) out rest
          else if c = '\n' then csvStep (.startField []) (out ++ [row ++ [f]]) rest
          else none

/-- Split a CSV file into lines of fields. -/
def parseCsvFields (s : String) : Option (List (List (List Char))) :=
  csvStep (.startField []) [] s.data

/-- Numeric value of a decimal digit character (codepoints 48-57). -/
def charDigit (c : Char) : Option Nat :=
  let v := c.toNat
  if 48 ≤ v ∧ v ≤ 57 then some (v - 48) else none

/-- Digit values of a character list, most significant first; `none` if a
character is not a digit. -/
def digitsOf : List Char → Option (List Nat)
  | [] => some []
  | c :: cs =>
      match charDigit c, digitsOf cs with
      | some d, some ds => some (d :: ds)
      | _, _ => none

/-- Parse a non-empty all-digit field as a natural number. -/
def parseNatChars (cs : List Char) : Option Nat :=
  if cs.isEmpty then none
  else (digitsOf cs).map fun ds => Nat.ofDigits 10 ds.reverse

/-- Parse an optionally `-`-signed decimal field as an integer. -/
def parseIntChars : List Char → Option Int
  | [] => none
  | c :: rest =>
      if c = '-' then (parseNatChars rest).map fun n => -(n : Int)
      else (parseNatChars (c :: rest)).map fun n => (n : Int)

/-- Rebuild one `Row` from the six fields of a CSV line. -/
def fieldsToRow : List (List Char) → Option Row
  | [i, n, sid, subj, m, d] =>
      match parseNatChars i, parseIntChars m with
      | some idv, some mv =>
          some ⟨idv, String.mk n, String.mk sid, String.mk subj, mv, String.mk d⟩
      | _, _ => none
  | _ => none

/-- Rebuild the rows from the parsed field lines. -/
def rowsToRecords : List (List (List Char)) → Option (List Row)
  | [] => some []
  | fs :: rest =>
      match fieldsToRow fs, rowsToRecords rest with
      | some r, some rs => some (r :: rs)
      | _, _ => none

/-- Re-parse a CSV export: split into lines of fields, check the header
line, rebuild the records. -/
def parseCsv (s : String) : Option (List Row) :=
  match parseCsvFields s with
  | none => none
  | some [] => none
  | some (h :: rs) => if h = headerFields then rowsToRecords rs else none

/-! ### Single transitions of the CSV machine -/

theorem not_special_comma {c : Char} (hc : isCsvSpecial c = false) : c ≠ ',' := by
  intro h; subst h; simp [isCsvSpecial] at hc

theorem not_special_quote {c : Char} (hc : isCsvSpecial c = false) : c ≠ quoteChar := by
  intro h; subst h; simp [isCsvSpecial] at hc

theorem not_special_nl {c : Char} (hc : isCsvSpecial c = false) : c ≠ '\n' := by
  intro h; subst h; simp [isCsvSpecial] at hc

theorem csvStep_startField_qc (row : List (List Char)) (out : List (List (List Char)))
    (rest : List Char) :
    csvStep (.startField row) out (quoteChar :: rest) = csvStep (.quoted [] row) out rest := by
  simp [csvStep]

theorem csvStep_startField_comma (row : List (List Char)) (out : List (List (List Char)))
    (rest : List Char) :
    csvStep (.startField row) out (',' :: rest) =
      csvStep (.startField (row ++ [[]])) out rest := by
  simp [csvStep, show (',' : Char) ≠ quoteChar from by decide]

theorem csvStep_startField_nl (row : List (List Char)) (out : List (List (List Char)))
    (rest : List Char) :
    csvStep (.startField row) out ('\n' :: rest) =
      csvStep (.startField []) (out ++ [row ++ [[]]]) rest := by
  simp [csvStep, show ('\n' : Char) ≠ quoteChar from by decide,
        show ('\n' : Char) ≠ ',' from by decide]

theorem csvStep_startField_other (c : Char) (h1 : c ≠ quoteChar) (h2 : c ≠ ',') (h3 : c ≠ '\n')
    (row : List (List Char)) (out : List (List (List Char))) (rest : List Char) :
    csvStep (.startField row) out (c :: rest) = csvStep (.unquoted [c] row) out rest := by
  simp [csvStep, h1, h2, h3]

theorem csvStep_unquoted_comma (f : List Char) (row : List (List Char))
    (out : List (List (List Char))) (rest : List Char) :
    csvStep (.unquoted f row) out (',' :: rest) =
      csvStep (.startField (row ++ [f])) out rest := by
  simp [csvStep]

theorem csvStep_unquoted_nl (f : List Char) (row : List (List Char))
    (out : List (List (List Char))) (rest : List Char) :
    csvStep (.unquoted f row) out ('\n' :: rest) =
      csvStep (.startField []) (out ++ [row ++ [f]]) rest := by
  simp [csvStep, show ('\n' : Char) ≠ ',' from by decide]

theorem csvStep_unquoted_other (c : Char) (h2 : c ≠ ',') (h3 : c ≠ '\n')
    (f : List Char) (row : List (List Char)) (out : List (List (List Char))) (rest : List Char) :
    csvStep (.unquoted f row) out (c :: rest) = csvStep (.unquoted (f ++ [c]) row) out rest := by
  simp [csvStep, h2, h3]

theorem csvStep_quoted_qc (f : List Char) (row : List (List Char))
    (out : List (List (List Char))) (rest : List Char) :
    csvStep (.quoted f row) out (quoteChar :: rest) = csvStep (.afterQ f row) out rest := by
  simp [csvStep]

theorem csvStep_quoted_other (c : Char) (h1 : c ≠ quoteChar)
    (f : List Char) (row : List (List Char)) (out : List (List (List Char))) (rest : List Char) :
    csvStep (.quoted f row) out (c :: rest) = csvStep (.quoted (f ++ [c]) row) out rest := by
  simp [csvStep, h1]

theorem csvStep_afterQ_qc (f : List Char) (row : List (List Char))
    (out : List (List (List Char))) (rest : List Char) :
    csvStep (.afterQ f row) out (quoteChar :: rest) =
      csvStep (.quoted (f ++ [quoteChar]) row) out rest := by
  simp [csvStep]

theorem csvStep_afterQ_comma (f : List Char) (row : List (List Char))
    (out : List (List (List Char))) (rest : List Char) :
    csvStep (.afterQ f row) out (',' :: rest) = csvStep (.startField (row ++ [f])) out rest := by
  simp [csvStep, show (',' : Char) ≠ quoteChar from by decide]

theorem csvStep_afterQ_nl (f : List Char) (row : List (List Char))
    (out : List (List (List Char))) (rest : List Char) :
    csvStep (.afterQ f row) out ('\n' :: rest) =
      csvStep (.startField []) (out ++ [row ++ [f]]) rest := by
  simp [csvStep, show ('\n' : Char) ≠ quoteChar from by decide,
        show ('\n' : Char) ≠ ',' from by decide]

/-! ### Runs of the CSV machine over an encoded field, line and file -/

theorem csvStep_escQ_run (f : List Char) (g : List Char) (row : List (List Char))
    (out : List (List (List Char))) (rest : List Char) :
    csvStep (.quoted g row) out (escQ f ++ quoteChar :: rest) =
      csvStep (.afterQ (g ++ f) row) out rest := by
  induction f generalizing g with
  | nil =>
      rw [escQ, List.nil_append, csvStep_quoted_qc]
      simp
  | cons c cs ih =>
      by_cases hc : c = quoteChar
      · subst hc
        rw [escQ, if_pos rfl, List.cons_append, List.cons_append,
            csvStep_quoted_qc, csvStep_afterQ_qc, ih]
        simp
      · rw [escQ, if_neg hc, List.cons_append, csvStep_quoted_other c hc, ih]
        simp

theorem csvStep_unquoted_run (f : List Char) (hf : ∀ c ∈ f, isCsvSpecial c = false)
    (g : List Char) (row : List (List Char)) (out : List (List (List Char)))
    (rest : List Char) :
    csvStep (.unquoted g row) out (f ++ rest) = csvStep (.unquoted (g ++ f) row) out rest := by
  induction f generalizing g with
  | nil => simp
  | cons c cs ih =>
      have hc := hf c (by simp)
      rw [List.cons_append,
          csvStep_unquoted_other c (not_special_comma hc) (not_special_nl hc),
          ih (fun x hx => hf x (by simp [hx]))]
      simp

theorem csvStep_encField_comma (f : List Char) (row : List (List Char))
    (out : List (List (List Char))) (rest : List Char) :
    csvStep (.startField row) out (encField f ++ ',' :: rest) =
      csvStep (.startField (row ++ [f])) out rest := by
  cases hq : f.any isCsvSpecial with
  | true =>
      rw [encField, if_pos hq, List.cons_append, csvStep_startField_qc]
      have h : (escQ f ++ [quoteChar]) ++ ',' :: rest = escQ f ++ quoteChar :: ',' :: rest := by
        simp
      rw [h, csvStep_escQ_run, csvStep_afterQ_comma]
      simp
  | false =>
      have hall : ∀ c ∈ f, isCsvSpecial c = false := by
        intro c hcmem
        rw [List.any_eq_false] at hq
        exact Bool.eq_false_iff.mpr (hq c hcmem)
      rw [encField, if_neg (by simp [hq])]
      cases f with
      | nil => rw [List.nil_append, csvStep_startField_comma]
      | cons c cs =>
          have hc := hall c (by simp)
          rw [List.cons_append,
              csvStep_startField_other c (not_special_quote hc) (not_special_comma hc)
                (not_special_nl hc),
              csvStep_unquoted_run cs (fun x hx => hall x (by simp [hx])),
              csvStep_unquoted_comma]
          simp

theorem csvStep_encField_nl (f : List Char) (row : List (List Char))
    (out : List (List (List Char))) (rest : List Char) :
    csvStep (.startField row) out (encField f ++ '\n' :: rest) =
      csvStep (.startField []) (out ++ [row ++ [f]]) rest := by
  cases hq : f.any isCsvSpecial with
  | true =>
      rw [encField, if_pos hq, List.cons_append, csvStep_startField_qc]
      have h : (escQ f ++ [quoteChar]) ++ '\n' :: rest = escQ f ++ quoteChar :: '\n' :: rest := by
        simp
      rw [h, csvStep_escQ_run, csvStep_afterQ_nl]
      simp
  | false =>
      have hall : ∀ c ∈ f, isCsvSpecial c = false := by
        intro c hcmem
        rw [List.any_eq_false] at hq
        exact Bool.eq_false_iff.mpr (hq c hcmem)
      rw [encField, if_neg (by simp [hq])]
      cases f with
      | nil => rw [List.nil_append, csvStep_startField_nl]
      | cons c cs =>
          have hc := hall c (by simp)
          rw [List.cons_append,
              csvStep_startField_other c (not_special_quote hc) (not_special_comma hc)
                (not_special_nl hc),
              csvStep_unquoted_run cs (fun x hx => hall x (by simp [hx])),
              csvStep_unquoted_nl]
          simp

theorem csvStep_encRow_run (fs : List (List Char)) (hne : fs ≠ []) (row : List (List Char))
    (out : List (List (List Char))) (rest : List Char) :
    csvStep (.startField row) out (encRow fs ++ '\n' :: rest) =
      csvStep (.startField []) (out ++ [row ++ fs]) rest := by
  induction fs generalizing row with
  | nil => cases hne rfl
  | cons f fs2 ih =>
      cases fs2 with
      | nil => rw [encRow, csvStep_encField_nl]
      | cons g fs3 =>
          rw [encRow]
          have h : (encField f ++ ',' :: encRow (g :: fs3)) ++ '\n' :: rest =
              encField f ++ ',' :: (encRow (g :: fs3) ++ '\n' :: rest) := by simp
          rw [h, csvStep_encField_comma, ih (by simp)]
          simp

theorem csvStep_file_run (rowsL : List (List (List Char))) (h : ∀ fs ∈ rowsL, fs ≠ [])
    (out : List (List (List Char))) :
    csvStep (.startField []) out ((rowsL.map fun fs => encRow fs ++ ['\n']).flatten) =
      some (out ++ rowsL) := by
  induction rowsL generalizing out with
  | nil => simp [csvStep]
  | cons fs rs ih =>
      rw [List.map_cons, List.flatten_cons]
      have heq : (encRow fs ++ ['\n']) ++ (rs.map fun x => encRow x ++ ['\n']).flatten =
          encRow fs ++ '\n' :: (rs.map fun x => encRow x ++ ['\n']).flatten := by simp
      rw [heq, csvStep_encRow_run fs (h fs (by simp)), ih (fun a ha => h a (by simp [ha]))]
      simp

/-! ### Decimal fields round-trip -/

theorem charDigit_digitChar (d : Nat) (hd : d < 10) : charDigit (digitChar d) = some d := by
  interval_cases d <;> decide

theorem digitChar_ne_dash (d : Nat) (hd : d < 10) : digitChar d ≠ '-' := by
  interval_cases d <;> decide

theorem digitsOf_digitChar (l : List Nat) (h : ∀ d ∈ l, d < 10) :
    digitsOf (l.map digitChar) = some l := by
  induction l with
  | nil => rfl
  | cons d ds ih =>
      rw [List.map_cons, digitsOf, charDigit_digitChar d (h d (by simp)),
          ih (fun x hx => h x (by simp [hx]))]

theorem parseNatChars_natStr (n : Nat) : parseNatChars (natStr n) = some n := by
  rw [natStr]
  by_cases h : n = 0
  · subst h
    rw [if_pos rfl]
    rfl
  · rw [if_neg h]
    have hne : Nat.digits 10 n ≠ [] := Nat.digits_ne_nil_iff_ne_zero.mpr h
    have hlt : ∀ d ∈ (Nat.digits 10 n).reverse, d < 10 := fun d hd =>
      Nat.digits_lt_base (by norm_num) (List.mem_reverse.mp hd)
    have hEmpty : ((Nat.digits 10 n).reverse.map digitChar).isEmpty = false := by
      simp [List.isEmpty_iff, hne]
    rw [parseNatChars, if_neg (by simp; exact hne), digitsOf_digitChar _ hlt]
    rw [Option.map_some', List.reverse_reverse, Nat.ofDigits_digits]

theorem natStr_head (n : Nat) : ∃ d ds, natStr n = digitChar d :: ds ∧ d < 10 := by
  rw [natStr]
  by_cases h : n = 0
  · subst h
    exact ⟨0, [], rfl, by norm_num⟩
  · rw [if_neg h]
    have hne : (Nat.digits 10 n).reverse ≠ [] := by
      simp [Nat.digits_ne_nil_iff_ne_zero.mpr h]
    obtain ⟨d, ds, hds⟩ := List.exists_cons_of_ne_nil hne
    have hmem : d ∈ Nat.digits 10 n := by
      rw [← List.mem_reverse, hds]
      simp
    have hd : d < 10 := Nat.digits_lt_base (by norm_num) hmem
    exact ⟨d, ds.map digitChar, by rw [hds, List.map_cons], hd⟩

theorem parseIntChars_intStr (m : Int) : parseIntChars (intStr m) = some m := by
  rw [intStr]
  by_cases h : m < 0
  · rw [if_pos h]
    rw [parseIntChars, if_pos rfl, parseNatChars_natStr]
    simp [abs_of_neg h]
  · rw [if_neg h]
    obtain ⟨d, ds, hds, hd⟩ := natStr_head m.natAbs
    rw [hds, parseIntChars, if_neg (digitChar_ne_dash d hd), ← hds, parseNatChars_natStr]
    simp
    omega

/-! ### Record-level round-trip -/

theorem fieldsToRow_rowFields (r : Row) : fieldsToRow (rowFields r) = some r := by
  have h1 : parseNatChars (natStr r.id) = some r.id := parseNatChars_natStr _
  have h2 : parseIntChars (intStr r.marks) = some r.marks := parseIntChars_intStr _
  simp [rowFields, fieldsToRow, h1, h2]

theorem rowsToRecords_map (df : List Row) : rowsToRecords (df.map rowFields) = some df := by
  induction df with
  | nil => rfl
  | cons r rs ih => simp [rowsToRecords, fieldsToRow_rowFields, ih]

/-- C6: CSV export round-trip: serializing the full record set with
`to_csv` (header row of the MarkRecord field names, minimal quoting,
decimal integers) and re-parsing the CSV reproduces the in-memory records
field-for-field, for every record set. -/
theorem csv_round_trip (df : List Row) : parseCsv (toCsv df) = some df := by
  have hdata : (toCsv df).data =
      ((headerFields :: df.map rowFields).map fun fs => encRow fs ++ ['\n']).flatten := rfl
  have hne : ∀ fs ∈ headerFields :: df.map rowFields, fs ≠ [] := by
    intro fs hfs
    rcases List.mem_cons.mp hfs with rfl | hmem
    · simp [headerFields]
    · obtain ⟨r, _, rfl⟩ := List.mem_map.mp hmem
      simp [rowFields]
  rw [parseCsv, parseCsvFields, hdata, csvStep_file_run _ hne]
  simp [rowsToRecords_map]

end StudentMarks
